import Mathlib

/-!
Verification of asd::vector (src/vector.hpp).

A storage region is modelled as a list of slots: a slot holds `some t`
when a constructed value of type T lives there, `none` when it is raw
still-uninitialized memory.  The data pointer of the vector is
`Option (List (Option T))`: `none` models a null m_data_ptr.  Allocation
success is an oracle `aOk : Nat → Bool` (malloc may fail); a bad_alloc
exception is the `Except` error channel, and for member functions the
error value carries the state of the object at the moment the exception
escapes, which is how the C++ object is observed after a throw.
-/

set_option maxHeartbeats 1000000

namespace asd

variable {T : Type}

/-- Model of asd::move (vector.hpp lines 40-47): loop i = 0 .. count-1,
placement-new of output[i] from std::move(input[i]).  The value content of
input[i] is transferred into output slot i; slot i is written last for
i = count-1. -/
def move (input : List (Option T)) (count : Nat) (output : List (Option T)) :
    List (Option T) :=
  match count with
  | 0 => output
  | k + 1 => (asd.move input k output).set k (input.getD k none)

/-- Model of asd::copy (vector.hpp lines 53-60): loop i = 0 .. count-1,
placement-new of output[i] from input[i] (copy). Value-wise identical to
asd::move; the difference (source slots stay valid) is tracked by the
event-trace model below. -/
def copy (input : List (Option T)) (count : Nat) (output : List (Option T)) :
    List (Option T) :=
  match count with
  | 0 => output
  | k + 1 => (asd.copy input k output).set k (input.getD k none)

/-- Element-granularity view of allocator::allocate used by the vector
operations: a fresh region of n uninitialized slots on success, bad_alloc
on failure, decided by the oracle on the element count. -/
def alloc (T : Type) (aOk : Nat → Bool) (n : Nat) :
    Except Unit (List (Option T)) :=
  if aOk n then .ok (List.replicate n none) else .error ()

namespace allocator

/-- Byte count requested from malloc by allocator::allocate (vector.hpp
line 81): n * sizeof(T), computed in w-bit size_t arithmetic. -/
def allocBytes (w s n : Nat) : Nat := n * s % 2 ^ w

/-- Model of asd::allocator::allocate (vector.hpp lines 79-87): calls
std::malloc(n * sizeof(T)) and throws std::bad_alloc exactly when malloc
returns null (the oracle mo decides success from the requested byte
count).  The result is the number of whole T elements the returned region
can hold, bytes / sizeof(T). -/
def allocate (mo : Nat → Bool) (w s n : Nat) : Except Unit Nat :=
  if mo (allocBytes w s n) then .ok (allocBytes w s n / s) else .error ()

end allocator

/-- The data members of asd::vector (vector.hpp lines 104-107).  The
allocator member is stateless and is not represented. -/
structure vector (T : Type) where
  m_count : Nat
  m_capacity : Nat
  m_data : Option (List (Option T))
deriving DecidableEq, Repr

namespace vector

/-- vector::reset (vector.hpp lines 109-114). -/
def reset : vector T := ⟨0, 0, none⟩

/-- Contents of the region m_data_ptr points at ([] when null). -/
def region (v : vector T) : List (Option T) := v.m_data.getD []

def size (v : vector T) : Nat := v.m_count

def capacity (v : vector T) : Nat := v.m_capacity

/-- Model of vector::operator[] (vector.hpp lines 250-261): unchecked
m_data_ptr[idx]; the result is the contents of slot idx. -/
def index (v : vector T) (idx : Nat) : Option T := v.region.getD idx none

/-- Model of vector::reallocate (vector.hpp lines 129-136):
new_capacity = capacity == 0 ? 1 : capacity * 2; allocate; asd::move the
count elements; deallocate the old region; init(new_capacity, m_count,
new_data_ptr).  The allocation is the first action, so when it throws the
escaping error carries the object unmutated. -/
def reallocate (aOk : Nat → Bool) (v : vector T) :
    Except (vector T) (vector T) :=
  match asd.alloc T aOk (if v.m_capacity = 0 then 1 else v.m_capacity * 2) with
  | .error _ => .error v
  | .ok nd => .ok ⟨v.m_count, if v.m_capacity = 0 then 1 else v.m_capacity * 2,
      some (asd.move v.region v.m_count nd)⟩

/-- Model of vector::push_back (vector.hpp lines 220-229): grow when
m_count == m_capacity, then placement-new the item at slot m_count and
increment m_count. -/
def push_back (aOk : Nat → Bool) (v : vector T) (item : T) :
    Except (vector T) (vector T) :=
  if v.m_count = v.m_capacity then
    match v.reallocate aOk with
    | .error s => .error s
    | .ok w => .ok ⟨w.m_count + 1, w.m_capacity,
        w.m_data.map (fun l => l.set w.m_count (some item))⟩
  else
    .ok ⟨v.m_count + 1, v.m_capacity,
      v.m_data.map (fun l => l.set v.m_count (some item))⟩

/-- Model of vector::emplace_back (vector.hpp lines 236-245): the body is
identical to push_back, the new element being T(std::forward(args)...),
passed here as the already-constructed value item. -/
def emplace_back (aOk : Nat → Bool) (v : vector T) (item : T) :
    Except (vector T) (vector T) :=
  if v.m_count = v.m_capacity then
    match v.reallocate aOk with
    | .error s => .error s
    | .ok w => .ok ⟨w.m_count + 1, w.m_capacity,
        w.m_data.map (fun l => l.set w.m_count (some item))⟩
  else
    .ok ⟨v.m_count + 1, v.m_capacity,
      v.m_data.map (fun l => l.set v.m_count (some item))⟩

/-- Model of the copy constructor vector::vector(const vector&)
(vector.hpp lines 159-169): empty source gives reset(); otherwise
allocate other.size() slots, asd::copy the elements, then
init(other.size(), other.size(), m_data_ptr). -/
def copy_ctor (aOk : Nat → Bool) (other : vector T) :
    Except Unit (vector T) :=
  if other.m_count = 0 then .ok reset
  else
    match asd.alloc T aOk other.m_count with
    | .error e => .error e
    | .ok nd => .ok ⟨other.m_count, other.m_count,
        some (asd.copy other.region other.m_count nd)⟩

/-- Model of the move constructor vector::vector(vector&&) (vector.hpp
lines 174-178): init from other's members, then other.reset().  Result:
(the new vector, the state other is left in). -/
def move_ctor (other : vector T) : vector T × vector T :=
  (⟨other.m_count, other.m_capacity, other.m_data⟩, reset)

/-- Model of the copy assignment vector::operator=(const vector&)
(vector.hpp lines 183-194).  When m_capacity < other.m_count: allocate
(may throw; nothing mutated yet, so the error carries the object
unchanged), then destroy() the old elements and region and adopt the new
region.  In both paths asd::copy then writes other.m_count elements into
the target region starting at slot 0 (no destructor call precedes the
writes in the reuse path), and init(other.size(), other.size(),
m_data_ptr) ends with return *this, modelled by the ok value. -/
def copy_assign (aOk : Nat → Bool) (v other : vector T) :
    Except (vector T) (vector T) :=
  if v.m_capacity < other.m_count then
    match asd.alloc T aOk other.m_count with
    | .error _ => .error v
    | .ok nd => .ok ⟨other.m_count, other.m_count,
        some (asd.copy other.region other.m_count nd)⟩
  else
    .ok ⟨other.m_count, other.m_count,
      v.m_data.map (fun l => asd.copy other.region other.m_count l)⟩

/-- Model of the move assignment vector::operator=(vector&&) (vector.hpp
lines 199-204): destroy(); init from other's members; other.reset().
First component: (state of *this, state other is left in).  Second
component: the value the function returns — the function is declared to
return vector& but its body contains no return statement, so no value is
produced (none); some () would model an executed return *this. -/
def move_assign (_v other : vector T) :
    (vector T × vector T) × Option Unit :=
  ((⟨other.m_count, other.m_capacity, other.m_data⟩, reset), none)

/-- push_back under an always-succeeding allocator: the state after a
push_back call that completed without throwing. -/
def push_back_ok (v : vector T) (item : T) : vector T :=
  match v.push_back (fun _ => true) item with
  | .ok w => w
  | .error s => s

/-- A sequence of successful push_back calls, left to right. -/
def pushAll (v : vector T) (items : List T) : vector T :=
  items.foldl push_back_ok v

/-- Capacity after n successful push_back calls starting from empty: push
number n + 1 grows exactly when the count n has reached the current
capacity, to 1 from capacity 0 and to double otherwise (line 131). -/
def capFor : Nat → Nat
  | 0 => 0
  | n + 1 =>
      if n = capFor n then (if capFor n = 0 then 1 else capFor n * 2)
      else capFor n

/-- The storage region after pushing the elements of l from empty: null
while nothing was ever pushed, otherwise the elements in order followed
by still-uninitialized slots up to the capacity. -/
def regionFor (l : List T) : Option (List (Option T)) :=
  if l.length = 0 then none
  else some (l.map some ++ List.replicate (capFor l.length - l.length) none)

/-- The vector state reached by pushing the elements of l from empty. -/
def mkState (l : List T) : vector T := ⟨l.length, capFor l.length, regionFor l⟩

/-- The data-model invariant tying the data pointer to the capacity: the
pointer is null exactly when the capacity is zero. -/
def nullIffCap (v : vector T) : Prop := v.m_data = none ↔ v.m_capacity = 0

end vector

/-- First n slot values of src as a region prefix: the net effect of the
asd::move / asd::copy loops on the first n slots of their target. -/
def padTake (src : List (Option T)) (n : Nat) : List (Option T) :=
  (List.range n).map (fun i => src.getD i none)

/-- The two storage regions a single vector operation can touch: its
current (old) region and a freshly allocated (new) one. -/
inductive Reg where
  | old : Reg
  | new : Reg
deriving DecidableEq, Repr

/-- Memory-lifecycle events a vector operation performs, in program
order: region allocation, placement-construction into a slot, destructor
call on a slot, region deallocation. -/
inductive Ev where
  | allocE : Nat → Ev
  | constructE : Reg → Nat → Ev
  | destructE : Reg → Nat → Ev
  | deallocE : Reg → Ev
deriving DecidableEq, Repr

/-- Events of asd::move (lines 40-47): placement-construct slots
0..count-1 of the target region, in index order.  No destructor runs. -/
def moveTrace (r : Reg) (count : Nat) : List Ev :=
  (List.range count).map (Ev.constructE r)

/-- Events of asd::copy (lines 53-60): placement-construct slots
0..count-1 of the target region, in index order. -/
def copyTrace (r : Reg) (count : Nat) : List Ev :=
  (List.range count).map (Ev.constructE r)

/-- Events of vector::destroy (lines 138-145) for a T with a non-trivial
destructor: destruct slots 0..count-1, then deallocate the region. -/
def destroyTrace (r : Reg) (count : Nat) : List Ev :=
  (List.range count).map (Ev.destructE r) ++ [Ev.deallocE r]

/-- Events of vector::reallocate (lines 129-136) on a vector with the
given count and capacity: allocate the doubled region, asd::move the
count elements into it, deallocate the old region.  destroy() is never
called. -/
def reallocateTrace (count capacity : Nat) : List Ev :=
  Ev.allocE (if capacity = 0 then 1 else capacity * 2) ::
    (moveTrace Reg.new count ++ [Ev.deallocE Reg.old])

/-- Events of vector::operator=(const vector&) (lines 183-194) on a
destination with the given count and capacity and a source with oCount
elements: when capacity < oCount, allocate, destroy() the old elements
and region, asd::copy into the new region; otherwise asd::copy straight
into the current region with no destructor call. -/
def copyAssignTrace (vCount vCap oCount : Nat) : List Ev :=
  if vCap < oCount then
    Ev.allocE oCount :: (destroyTrace Reg.old vCount ++ copyTrace Reg.new oCount)
  else
    copyTrace Reg.old oCount

/-- Events of the copy constructor (lines 159-169): nothing for an empty
source, otherwise allocate and asd::copy into the new region.  The source
region (old) is never written, destructed or freed. -/
def copyCtorTrace (oCount : Nat) : List Ev :=
  if oCount = 0 then [] else Ev.allocE oCount :: copyTrace Reg.new oCount

/-- Liveness bookkeeping while replaying a trace: which slots of the old
and the new region currently hold a constructed object, and whether some
placement-construction has already hit a still-live slot. -/
structure LiveSt where
  liveOld : List Nat
  liveNew : List Nat
  overwrote : Bool
deriving DecidableEq, Repr

/-- One replay step: construction marks the slot live (flagging the
construction when the slot was live already), a destructor call marks it
dead; allocation and deallocation do not change slot liveness. -/
def stepEv (s : LiveSt) (e : Ev) : LiveSt :=
  match e with
  | Ev.allocE _ => s
  | Ev.deallocE _ => s
  | Ev.constructE Reg.old i =>
      ⟨i :: s.liveOld, s.liveNew, s.overwrote || s.liveOld.contains i⟩
  | Ev.constructE Reg.new i =>
      ⟨s.liveOld, i :: s.liveNew, s.overwrote || s.liveNew.contains i⟩
  | Ev.destructE Reg.old i =>
      ⟨s.liveOld.filter (fun j => j != i), s.liveNew, s.overwrote⟩
  | Ev.destructE Reg.new i =>
      ⟨s.liveOld, s.liveNew.filter (fun j => j != i), s.overwrote⟩

/-- Whether a trace placement-constructs into a slot whose previous
occupant is still live, starting from the given live slots of the old
region (the new region starts with none). -/
def constructOverLive (initOld : List Nat) (tr : List Ev) : Bool :=
  (tr.foldl stepEv ⟨initOld, [], false⟩).overwrote

/-- Whether an event touches the given region (writes a slot, destructs a
slot, or frees the region). -/
def touches (r : Reg) (e : Ev) : Bool :=
  match e with
  | Ev.allocE _ => false
  | Ev.constructE q _ => q == r
  | Ev.destructE q _ => q == r
  | Ev.deallocE q => q == r

end asd

namespace asd

variable {T : Type} {α : Type}

theorem copy_eq_move (src out : List (Option T)) :
    ∀ n, asd.copy src n out = asd.move src n out := by
  intro n
  induction n with
  | zero => rfl
  | succ k ih => simp only [asd.copy, asd.move, ih]

theorem move_length (src : List (Option T)) :
    ∀ (n : Nat) (out : List (Option T)),
      (asd.move src n out).length = out.length := by
  intro n
  induction n with
  | zero => intro out; rfl
  | succ k ih => intro out; simp only [asd.move, List.length_set, ih]

theorem padTake_length (src : List (Option T)) (n : Nat) :
    (padTake src n).length = n := by
  simp [padTake]

theorem padTake_succ (src : List (Option T)) (n : Nat) :
    padTake src (n + 1) = padTake src n ++ [src.getD n none] := by
  simp [padTake, List.range_succ]

theorem set_append_left_len (p q : List α) (x : α) (n : Nat)
    (h : n = p.length) : (p ++ q).set n x = p ++ q.set 0 x := by
  subst h
  induction p with
  | nil => rfl
  | cons a t ih =>
    show a :: ((t ++ q).set t.length x) = a :: (t ++ q.set 0 x)
    rw [ih]

theorem set_zero_drop (l : List α) (y : α) :
    ∀ n, n < l.length → (l.drop n).set 0 y = y :: l.drop (n + 1) := by
  induction l with
  | nil => intro n h; simp at h
  | cons a t ih =>
    intro n h
    cases n with
    | zero => rfl
    | succ m =>
      show (t.drop m).set 0 y = y :: t.drop (m + 1)
      exact ih m (by simpa using h)

theorem move_closed (src : List (Option T)) :
    ∀ (n : Nat) (out : List (Option T)), n ≤ out.length →
      asd.move src n out = padTake src n ++ out.drop n := by
  intro n
  induction n with
  | zero => intro out h; simp [asd.move, padTake]
  | succ k ih =>
    intro out h
    have hk : k ≤ out.length := Nat.le_of_succ_le h
    show (asd.move src k out).set k (src.getD k none) = _
    rw [ih out hk,
      set_append_left_len (padTake src k) (out.drop k) (src.getD k none) k
        (padTake_length src k).symm,
      set_zero_drop out (src.getD k none) k h, padTake_succ]
    simp

theorem getD_append_lt (p q : List α) (d : α) :
    ∀ i, i < p.length → (p ++ q).getD i d = p.getD i d := by
  induction p with
  | nil => intro i h; simp at h
  | cons a t ih =>
    intro i h
    cases i with
    | zero => rfl
    | succ m => exact ih m (by simpa using h)

theorem getD_append_ge (p q : List α) (d : α) :
    ∀ i, p.length ≤ i → (p ++ q).getD i d = q.getD (i - p.length) d := by
  induction p with
  | nil => intro i _; simp
  | cons a t ih =>
    intro i h
    cases i with
    | zero => simp at h
    | succ m =>
      show (t ++ q).getD m d = _
      rw [ih m (by simpa using h)]
      congr 1
      simp

theorem getD_replicate_self (d : α) :
    ∀ m i, (List.replicate m d).getD i d = d := by
  intro m
  induction m with
  | zero => intro i; rfl
  | succ k ih =>
    intro i
    cases i with
    | zero => rfl
    | succ j => exact ih j

theorem map_some_getD (l : List T) :
    ∀ i, (l.map some).getD i none = l[i]? := by
  induction l with
  | nil => intro i; cases i <;> rfl
  | cons a t ih =>
    intro i
    cases i with
    | zero => simp
    | succ m =>
      simp only [List.map_cons, List.getD_cons_succ, List.getElem?_cons_succ]
      exact ih m

theorem padTake_getD (src : List (Option T)) :
    ∀ n i, i < n → (padTake src n).getD i none = src.getD i none := by
  intro n
  induction n with
  | zero => intro i h; omega
  | succ k ih =>
    intro i h
    rw [padTake_succ]
    rcases Nat.lt_or_ge i k with hik | hik
    · rw [getD_append_lt _ _ _ i (by rw [padTake_length]; exact hik)]
      exact ih i hik
    · have hik2 : i = k := by omega
      subst hik2
      rw [getD_append_ge _ _ _ i (by rw [padTake_length])]
      simp [padTake_length]

theorem take_succ_getD (d : α) :
    ∀ (l : List α) k, k < l.length →
      l.take (k + 1) = l.take k ++ [l.getD k d] := by
  intro l
  induction l with
  | nil => intro k h; simp at h
  | cons a t ih =>
    intro k h
    cases k with
    | zero => rfl
    | succ m =>
      show a :: t.take (m + 1) = a :: (t.take m ++ [t.getD m d])
      rw [ih m (by simpa using h)]

theorem padTake_eq_take (src : List (Option T)) :
    ∀ n, n ≤ src.length → padTake src n = src.take n := by
  intro n
  induction n with
  | zero => intro h; rfl
  | succ k ih =>
    intro h
    rw [padTake_succ, ih (by omega), take_succ_getD none src k (by omega)]

theorem padTake_map_some (l : List T) :
    padTake (l.map some) l.length = l.map some := by
  rw [padTake_eq_take (l.map some) l.length (by simp)]
  have h : l.length = (l.map some).length := by simp
  rw [h, List.take_length]

theorem drop_replicate (d : α) :
    ∀ m k, (List.replicate m d).drop k = List.replicate (m - k) d := by
  intro m
  induction m with
  | zero => intro k; simp
  | succ j ih =>
    intro k
    cases k with
    | zero => rfl
    | succ i =>
      show (List.replicate j d).drop i = _
      rw [ih i]
      congr 1
      omega

end asd

namespace asd.vector

variable {T : Type}

theorem le_capFor : ∀ n : Nat, n ≤ capFor n := by
  intro n
  induction n with
  | zero => simp [capFor]
  | succ k ih =>
    show k + 1 ≤
      (if k = capFor k then (if capFor k = 0 then 1 else capFor k * 2)
       else capFor k)
    by_cases h : k = capFor k
    · rw [if_pos h]
      by_cases h0 : capFor k = 0
      · rw [if_pos h0]; omega
      · rw [if_neg h0]; omega
    · rw [if_neg h]; omega

theorem capFor_succ_of_ne (k : Nat) (h : k ≠ capFor k) :
    capFor (k + 1) = capFor k := by
  show (if k = capFor k then _ else capFor k) = capFor k
  rw [if_neg h]

theorem capFor_succ_of_eq (k : Nat) (h : k = capFor k) (h0 : capFor k ≠ 0) :
    capFor (k + 1) = capFor k * 2 := by
  show (if k = capFor k then (if capFor k = 0 then 1 else capFor k * 2)
       else capFor k) = capFor k * 2
  rw [if_pos h, if_neg h0]

theorem capFor_two_pow :
    ∀ n : Nat, 1 ≤ n → ∃ k, capFor n = 2 ^ k ∧ n ≤ 2 ^ k ∧ 2 ^ k < 2 * n := by
  intro n
  induction n with
  | zero => intro h; omega
  | succ m ih =>
    intro _
    by_cases hm : m = 0
    · subst hm
      exact ⟨0, by decide, by decide, by decide⟩
    · obtain ⟨k, hc, hle2, hlt2⟩ := ih (by omega)
      by_cases h : m = capFor m
      · have h0 : capFor m ≠ 0 := by omega
        refine ⟨k + 1, ?_, ?_, ?_⟩
        · rw [capFor_succ_of_eq m h h0, hc, pow_succ]
        · have hm2 : m = 2 ^ k := by rw [h, hc]
          rw [pow_succ]; omega
        · have hm2 : m = 2 ^ k := by rw [h, hc]
          rw [pow_succ]; omega
      · refine ⟨k, ?_, ?_, ?_⟩
        · rw [capFor_succ_of_ne m h]; exact hc
        · omega
        · omega

/-- push_back on a full nonempty regular state: grow to double capacity,
move the elements, append the new one. -/
theorem push_back_ok_full (d : List T) (x : T) (h0 : 0 < d.length) :
    push_back_ok ⟨d.length, d.length, some (d.map some)⟩ x =
      ⟨d.length + 1, d.length * 2,
        some ((d ++ [x]).map some ++
          List.replicate (d.length * 2 - (d.length + 1)) none)⟩ := by
  have hgrow : reallocate (fun _ => true)
      (⟨d.length, d.length, some (d.map some)⟩ : vector T) =
      .ok ⟨d.length, d.length * 2,
        some (d.map some ++ List.replicate (d.length * 2 - d.length) none)⟩ := by
    unfold reallocate asd.alloc
    have hne : ¬ d.length = 0 := by omega
    rw [if_neg hne]
    show Except.ok (⟨d.length, d.length * 2,
        some (asd.move (d.map some) d.length
          (List.replicate (d.length * 2) none))⟩ : vector T) = _
    rw [asd.move_closed (d.map some) d.length
        (List.replicate (d.length * 2) none) (by simp [Nat.le_mul_of_pos_right]),
      asd.padTake_map_some, asd.drop_replicate]
  unfold push_back_ok push_back
  rw [if_pos rfl, hgrow]
  have hdata : (d.map some ++
      List.replicate (d.length * 2 - d.length) none).set d.length (some x) =
      (d ++ [x]).map some ++
        List.replicate (d.length * 2 - (d.length + 1)) none := by
    rw [asd.set_append_left_len (d.map some)
        (List.replicate (d.length * 2 - d.length) none) (some x) d.length
        (by simp)]
    have h2 : d.length * 2 - d.length =
        (d.length * 2 - (d.length + 1)) + 1 := by omega
    rw [h2, List.replicate_succ]
    show d.map some ++
        some x :: List.replicate (d.length * 2 - (d.length + 1)) none = _
    rw [List.map_append]
    simp
  simp only [Option.map_some', hdata]

/-- push_back on a regular state with spare capacity: no growth, the new
element fills the first uninitialized slot. -/
theorem push_back_ok_spare (d : List T) (c : Nat) (x : T)
    (hlt : d.length < c) :
    push_back_ok
        ⟨d.length, c,
          some (d.map some ++ List.replicate (c - d.length) none)⟩ x =
      ⟨d.length + 1, c,
        some ((d ++ [x]).map some ++
          List.replicate (c - (d.length + 1)) none)⟩ := by
  unfold push_back_ok push_back
  have hne : ¬ d.length = c := by omega
  rw [if_neg hne]
  have hdata : (d.map some ++
      List.replicate (c - d.length) none).set d.length (some x) =
      (d ++ [x]).map some ++ List.replicate (c - (d.length + 1)) none := by
    rw [asd.set_append_left_len (d.map some)
        (List.replicate (c - d.length) none) (some x) d.length (by simp)]
    have h2 : c - d.length = (c - (d.length + 1)) + 1 := by omega
    rw [h2, List.replicate_succ]
    show d.map some ++
        some x :: List.replicate (c - (d.length + 1)) none = _
    rw [List.map_append]
    simp
  simp only [Option.map_some', hdata]

/-- One successful push_back step on the state reached from empty. -/
theorem push_back_ok_mkState (l : List T) (x : T) :
    push_back_ok (mkState l) x = mkState (l ++ [x]) := by
  rcases eq_or_ne l [] with rfl | hne
  · rfl
  · have hn : 0 < l.length := List.length_pos.mpr hne
    have hle := le_capFor l.length
    have hlen1 : (l ++ [x]).length = l.length + 1 := by simp
    by_cases h : l.length = capFor l.length
    · have hcap : capFor (l.length + 1) = capFor l.length * 2 :=
        capFor_succ_of_eq l.length h (by omega)
      have hmk : mkState l = ⟨l.length, l.length, some (l.map some)⟩ := by
        unfold mkState regionFor
        rw [if_neg (by omega)]
        rw [← h]
        simp
      rw [hmk, push_back_ok_full l x hn]
      unfold mkState regionFor
      rw [if_neg (by rw [hlen1]; omega)]
      rw [hlen1, hcap, ← h]
    · have hlt : l.length < capFor l.length := by omega
      have hcap : capFor (l.length + 1) = capFor l.length :=
        capFor_succ_of_ne l.length h
      have hmk : mkState l = ⟨l.length, capFor l.length,
          some (l.map some ++
            List.replicate (capFor l.length - l.length) none)⟩ := by
        unfold mkState regionFor
        rw [if_neg (by omega)]
      rw [hmk, push_back_ok_spare l (capFor l.length) x hlt]
      unfold mkState regionFor
      rw [if_neg (by rw [hlen1]; omega)]
      rw [hlen1, hcap]

/-- pushAll from a reachable state stays on reachable states. -/
theorem pushAll_mkState :
    ∀ (todo : List T) (done : List T),
      pushAll (mkState done) todo = mkState (done ++ todo) := by
  intro todo
  induction todo with
  | nil => intro done; simp [pushAll]
  | cons a t ih =>
    intro done
    show pushAll (push_back_ok (mkState done) a) t = _
    rw [push_back_ok_mkState, ih]
    simp

/-- The state after pushing the elements of l from an empty vector. -/
theorem pushAll_reset (l : List T) : pushAll reset l = mkState l := by
  have h : (reset : vector T) = mkState [] := rfl
  rw [h, pushAll_mkState]
  simp

end asd.vector

/-- C8: allocator::allocate(n) either fails with OutOfMemory (malloc
returned null; nothing is returned, and being stateless nothing is
mutated) or returns a region whose byte size is n * sizeof(T) computed in
size_t arithmetic: for n at most SIZE_MAX / sizeof(T) the region holds at
least (exactly) n elements, while for larger n the product wraps modulo
2^w and the region holds fewer than n elements. -/
theorem allocator_allocate_size_correct (mo : Nat → Bool) (w s n : Nat)
    (hs : 0 < s) :
    asd.allocator.allocate mo w s n = Except.error () ∨
    (asd.allocator.allocate mo w s n =
        Except.ok (asd.allocator.allocBytes w s n / s) ∧
      (n ≤ (2 ^ w - 1) / s → asd.allocator.allocBytes w s n / s = n) ∧
      ((2 ^ w - 1) / s < n → asd.allocator.allocBytes w s n / s < n)) := by
  unfold asd.allocator.allocate
  by_cases hmo : mo (asd.allocator.allocBytes w s n) = true
  · right
    refine ⟨by simp [hmo], ?_, ?_⟩
    · intro h
      have hle : n * s ≤ 2 ^ w - 1 := (Nat.le_div_iff_mul_le hs).mp h
      have hlt : n * s < 2 ^ w := by
        have hpos : 0 < 2 ^ w := Nat.pos_pow_of_pos w (by norm_num)
        omega
      unfold asd.allocator.allocBytes
      rw [Nat.mod_eq_of_lt hlt]
      exact Nat.mul_div_cancel n hs
    · intro h
      have hge : 2 ^ w - 1 < n * s := (Nat.div_lt_iff_lt_mul hs).mp h
      have hpos : 0 < 2 ^ w := Nat.pos_pow_of_pos w (by norm_num)
      have hlt : asd.allocator.allocBytes w s n < n * s := by
        have := Nat.mod_lt (n * s) hpos
        unfold asd.allocator.allocBytes
        omega
      exact (Nat.div_lt_iff_lt_mul hs).mpr hlt
  · left
    simp [hmo]

/-- Witness for C8 at w = 4, s = 3, n = 6: here SIZE_MAX / sizeof(T) =
15 / 3 = 5 < 6, the wrapped byte count is 18 mod 16 = 2 and the region
holds 0 < 6 elements. -/
theorem allocator_allocate_size_correct_witness :
    0 < 3 ∧
    (asd.allocator.allocate (fun _ => true) 4 3 6 = Except.error () ∨
    (asd.allocator.allocate (fun _ => true) 4 3 6 =
        Except.ok (asd.allocator.allocBytes 4 3 6 / 3) ∧
      (6 ≤ (2 ^ 4 - 1) / 3 → asd.allocator.allocBytes 4 3 6 / 3 = 6) ∧
      ((2 ^ 4 - 1) / 3 < 6 → asd.allocator.allocBytes 4 3 6 / 3 < 6))) :=
  ⟨by decide, allocator_allocate_size_correct (fun _ => true) 4 3 6 (by decide)⟩

/-- C10: move assignment does transfer ownership of the source's storage,
count and capacity to the destination and resets the source to empty, but
the operator, although declared to return vector&, contains no return
statement: no value is produced (the model yields none where an executed
return *this would yield some ()).  Evaluating a call of the operator is
therefore undefined behavior, not a reference to the destination. -/
theorem move_assign_missing_return (T : Type) (v w : asd.vector T) :
    (asd.vector.move_assign v w).2 = none ∧
    (asd.vector.move_assign v w).1.1 = ⟨w.m_count, w.m_capacity, w.m_data⟩ ∧
    (asd.vector.move_assign v w).1.2 = asd.vector.reset :=
  ⟨rfl, rfl, rfl⟩

/-- C2: on the failing input — destination with one live element (count
1, capacity 1), source with one element — copy assignment takes the
storage-reuse path and placement-constructs into slot 0 of the old region
while its previous occupant is still live, with no destructor call in the
trace: the replay flags a construct-over-live. -/
theorem copy_assign_constructs_over_live :
    asd.constructOverLive (List.range 1) (asd.copyAssignTrace 1 1 1) = true := by
  decide

/-- C6: the trace of every growth step contains no destructor call at
all, releases the old region as its final action, and its
placement-constructions are exactly slots 0..count-1 of the new region in
index order (the asd::move of the count existing elements). -/
theorem growth_releases_old_without_destructors (count capacity : Nat) :
    (∀ r i, asd.Ev.destructE r i ∉ asd.reallocateTrace count capacity) ∧
    (asd.reallocateTrace count capacity).getLast? =
      some (asd.Ev.deallocE asd.Reg.old) ∧
    (asd.reallocateTrace count capacity).filter
        (fun e => match e with | asd.Ev.constructE _ _ => true | _ => false) =
      (List.range count).map (asd.Ev.constructE asd.Reg.new) := by
  refine ⟨?_, ?_, ?_⟩
  · intro r i h
    simp [asd.reallocateTrace, asd.moveTrace] at h
  · show (asd.Ev.allocE _ ::
        (asd.moveTrace asd.Reg.new count ++ [asd.Ev.deallocE asd.Reg.old])).getLast? = _
    rw [← List.cons_append, List.getLast?_concat]
  · simp only [asd.reallocateTrace, asd.moveTrace, List.filter_cons,
      List.filter_append, List.filter_map]
    rw [List.filter_eq_self.mpr]
    · simp
    · intro a _
      rfl

namespace asd.vector

variable {T : Type}

theorem copy_length (src : List (Option T)) (n : Nat)
    (out : List (Option T)) : (asd.copy src n out).length = out.length := by
  rw [asd.copy_eq_move, asd.move_length]

theorem index_mkState (l : List T) (i : Nat) :
    (mkState l).index i = l[i]? := by
  rcases eq_or_ne l [] with rfl | hne
  · show ([] : List (Option T)).getD i none = _
    simp
  · have hn : 0 < l.length := List.length_pos.mpr hne
    show ((mkState l).region).getD i none = _
    unfold mkState region regionFor
    rw [if_neg (by omega)]
    show (l.map some ++
        List.replicate (capFor l.length - l.length) none).getD i none = _
    rcases Nat.lt_or_ge i l.length with hi | hi
    · rw [asd.getD_append_lt _ _ _ i (by simpa using hi)]
      exact asd.map_some_getD l i
    · rw [asd.getD_append_ge _ _ _ i (by simpa using hi),
        asd.getD_replicate_self]
      exact (List.getElem?_eq_none hi).symm

end asd.vector

/-- C1: for every sequence of successful push_back calls starting from a
default-constructed vector (stated for every item list l, hence for every
prefix of a longer run), the size equals the number of calls made, the
capacity never falls below the size, and operator[] at index i yields the
i-th inserted value for every i below the size (and an uninitialized slot
beyond it). -/
theorem push_back_sequence_correct (T : Type) (l : List T) :
    (asd.vector.pushAll asd.vector.reset l).size = l.length ∧
    (asd.vector.pushAll asd.vector.reset l).size ≤
      (asd.vector.pushAll asd.vector.reset l).capacity ∧
    ∀ i : Nat, (asd.vector.pushAll asd.vector.reset l).index i = l[i]? := by
  rw [asd.vector.pushAll_reset]
  refine ⟨rfl, ?_, ?_⟩
  · show l.length ≤ asd.vector.capFor l.length
    exact asd.vector.le_capFor l.length
  · intro i
    exact asd.vector.index_mkState l i

/-- C5: a push_back that finds count different from capacity leaves the
capacity unchanged; one that finds them equal grows it to 1 from 0 and to
double otherwise; and after any nonempty run of successful push_back
calls from empty the capacity is the least power of two at or above the
length — so the capacities taken are exactly 1, 2, 4, 8, 16, ... -/
theorem capacity_doubling_correct :
    (∀ (v : asd.vector Nat) (x : Nat), v.m_count ≠ v.m_capacity →
      (asd.vector.push_back_ok v x).capacity = v.capacity) ∧
    (∀ (v : asd.vector Nat) (x : Nat), v.m_count = v.m_capacity →
      (asd.vector.push_back_ok v x).capacity =
        (if v.m_capacity = 0 then 1 else v.m_capacity * 2)) ∧
    (∀ l : List Nat, l ≠ [] →
      ∃ k, (asd.vector.pushAll asd.vector.reset l).capacity = 2 ^ k ∧
        l.length ≤ 2 ^ k ∧ 2 ^ k < 2 * l.length) := by
  refine ⟨?_, ?_, ?_⟩
  · intro v x h
    unfold asd.vector.push_back_ok asd.vector.push_back
    rw [if_neg h]
    rfl
  · intro v x h
    unfold asd.vector.push_back_ok asd.vector.push_back
      asd.vector.reallocate asd.alloc
    rw [if_pos h]
    rfl
  · intro l hl
    rw [asd.vector.pushAll_reset]
    have h1 : 1 ≤ l.length := List.length_pos.mpr hl
    obtain ⟨k, hc, hle, hlt⟩ := asd.vector.capFor_two_pow l.length h1
    exact ⟨k, hc, hle, hlt⟩

/-- Witness for C5: pushing 1,2,3 reaches count 3, capacity 4, so the
fourth push has spare room and keeps capacity 4; pushing a single element
gives capacity 1 = 2^0. -/
theorem capacity_doubling_correct_witness :
    ((asd.vector.push_back_ok
        (asd.vector.pushAll asd.vector.reset [1, 2, 3]) 9).capacity =
      (asd.vector.pushAll asd.vector.reset ([1, 2, 3] : List Nat)).capacity) ∧
    ∃ k, (asd.vector.pushAll asd.vector.reset ([5] : List Nat)).capacity =
        2 ^ k ∧
      ([5] : List Nat).length ≤ 2 ^ k ∧
      2 ^ k < 2 * ([5] : List Nat).length :=
  ⟨capacity_doubling_correct.1 (asd.vector.pushAll asd.vector.reset [1, 2, 3])
      9 (by decide),
    capacity_doubling_correct.2.2 [5] (by decide)⟩

/-- C4: when the allocation inside a growth step fails, push_back and
emplace_back fail by the escaping bad_alloc and the state the exception
leaves behind (the error payload) is the untouched input vector: same
storage, count, capacity and elements. -/
theorem growth_failure_leaves_vector_unchanged (T : Type)
    (aOk : Nat → Bool) (v : asd.vector T) (x : T) (s : asd.vector T) :
    (asd.vector.push_back aOk v x = Except.error s → s = v) ∧
    (asd.vector.emplace_back aOk v x = Except.error s → s = v) := by
  constructor
  · intro h
    unfold asd.vector.push_back at h
    by_cases hc : v.m_count = v.m_capacity
    · rw [if_pos hc] at h
      unfold asd.vector.reallocate asd.alloc at h
      by_cases ha :
          aOk (if v.m_capacity = 0 then 1 else v.m_capacity * 2) = true
      · rw [if_pos ha] at h
        simp at h
      · rw [if_neg ha] at h
        simp at h
        exact h.symm
    · rw [if_neg hc] at h
      simp at h
  · intro h
    unfold asd.vector.emplace_back at h
    by_cases hc : v.m_count = v.m_capacity
    · rw [if_pos hc] at h
      unfold asd.vector.reallocate asd.alloc at h
      by_cases ha :
          aOk (if v.m_capacity = 0 then 1 else v.m_capacity * 2) = true
      · rw [if_pos ha] at h
        simp at h
      · rw [if_neg ha] at h
        simp at h
        exact h.symm
    · rw [if_neg hc] at h
      simp at h

/-- Witness for C4: with an allocator that always fails, push_back on the
empty vector (count 0 = capacity 0 forces growth) reports OutOfMemory and
the carried state is the input itself. -/
theorem growth_failure_leaves_vector_unchanged_witness :
    asd.vector.push_back (fun _ => false) (@asd.vector.reset Nat) 0 =
      Except.error asd.vector.reset ∧
    (@asd.vector.reset Nat) = asd.vector.reset :=
  ⟨rfl, (growth_failure_leaves_vector_unchanged Nat (fun _ => false)
      asd.vector.reset 0 asd.vector.reset).1 rfl⟩

/-- C7: copy construction from an empty vector produces the empty state
(count 0, capacity 0, null storage); from a non-empty vector of count n
it produces capacity exactly n, count n, and element-wise equal contents,
while its event trace never touches the source region — the source is
left unmodified and the copy lives in a freshly allocated region, so
later mutation of either cannot affect the other. -/
theorem copy_ctor_correct (T : Type) (other : asd.vector T) :
    (other.m_count = 0 →
      asd.vector.copy_ctor (fun _ => true) other =
        Except.ok asd.vector.reset) ∧
    (0 < other.m_count →
      ∃ c, asd.vector.copy_ctor (fun _ => true) other = Except.ok c ∧
        c.capacity = other.m_count ∧ c.size = other.m_count ∧
        ∀ i, i < other.m_count → c.index i = other.index i) ∧
    (∀ e ∈ asd.copyCtorTrace other.m_count,
      asd.touches asd.Reg.old e = false) := by
  refine ⟨?_, ?_, ?_⟩
  · intro h
    unfold asd.vector.copy_ctor
    rw [if_pos h]
  · intro h
    refine ⟨⟨other.m_count, other.m_count,
      some (asd.copy other.region other.m_count
        (List.replicate other.m_count none))⟩, ?_, rfl, rfl, ?_⟩
    · unfold asd.vector.copy_ctor asd.alloc
      rw [if_neg (by omega)]
      rfl
    · intro i hi
      show (asd.copy other.region other.m_count
          (List.replicate other.m_count none)).getD i none = _
      rw [asd.copy_eq_move,
        asd.move_closed other.region other.m_count
          (List.replicate other.m_count none) (by simp),
        asd.drop_replicate]
      simp only [Nat.sub_self, List.replicate_zero, List.append_nil]
      exact asd.padTake_getD other.region other.m_count i hi
  · intro e he
    unfold asd.copyCtorTrace at he
    by_cases h0 : other.m_count = 0
    · rw [if_pos h0] at he
      simp at he
    · rw [if_neg h0] at he
      rcases List.mem_cons.mp he with rfl | he2
      · rfl
      · unfold asd.copyTrace at he2
        obtain ⟨j, _, rfl⟩ := List.mem_map.mp he2
        rfl

/-- Witness for C7 at the source vector holding 4 then 5: the copy has
capacity 2, count 2 and the same two elements. -/
theorem copy_ctor_correct_witness :
    0 < (asd.vector.pushAll asd.vector.reset ([4, 5] : List Nat)).m_count ∧
    ∃ c, asd.vector.copy_ctor (fun _ => true)
          (asd.vector.pushAll asd.vector.reset ([4, 5] : List Nat)) =
        Except.ok c ∧
      c.capacity =
        (asd.vector.pushAll asd.vector.reset ([4, 5] : List Nat)).m_count ∧
      c.size =
        (asd.vector.pushAll asd.vector.reset ([4, 5] : List Nat)).m_count ∧
      ∀ i, i <
          (asd.vector.pushAll asd.vector.reset ([4, 5] : List Nat)).m_count →
        c.index i =
          (asd.vector.pushAll asd.vector.reset ([4, 5] : List Nat)).index i :=
  ⟨by decide,
    (copy_ctor_correct Nat
      (asd.vector.pushAll asd.vector.reset ([4, 5] : List Nat))).2.1
      (by decide)⟩

/-- C3, counterexample: copy-assigning an empty vector into a vector that
holds one element (capacity 1) is a public operation after which
capacity() is 0 while the storage pointer is still the old non-null
region — the storage pointer is not null although the capacity is zero,
refuting the claimed equivalence at every observable point. -/
theorem null_iff_zero_capacity_cex :
    (match asd.vector.copy_assign (fun _ => true)
        (asd.vector.push_back_ok (@asd.vector.reset Nat) 7)
        asd.vector.reset with
      | Except.ok w => (w.m_capacity == 0) && w.m_data.isSome
      | Except.error _ => false) = true := by
  decide

/-- C3 as amended: the storage pointer is null exactly when capacity() is
0 after default construction, copy construction, move construction
(for both objects), push_back, emplace_back and move assignment (for both
objects), given inputs satisfying the invariant; copy assignment
preserves the invariant when the source is non-empty or the destination
capacity is zero, and always breaks it in the remaining case — an empty
source and a destination of non-zero capacity leave capacity() == 0 with
a non-null storage pointer. -/
theorem null_iff_zero_capacity_amended (T : Type) :
    asd.vector.nullIffCap (@asd.vector.reset T) ∧
    (∀ (aOk : Nat → Bool) (other r : asd.vector T),
      asd.vector.copy_ctor aOk other = Except.ok r →
      asd.vector.nullIffCap r) ∧
    (∀ other : asd.vector T, asd.vector.nullIffCap other →
      asd.vector.nullIffCap (asd.vector.move_ctor other).1 ∧
      asd.vector.nullIffCap (asd.vector.move_ctor other).2) ∧
    (∀ (aOk : Nat → Bool) (v r : asd.vector T) (x : T),
      asd.vector.nullIffCap v →
      asd.vector.push_back aOk v x = Except.ok r →
      asd.vector.nullIffCap r) ∧
    (∀ (aOk : Nat → Bool) (v r : asd.vector T) (x : T),
      asd.vector.nullIffCap v →
      asd.vector.emplace_back aOk v x = Except.ok r →
      asd.vector.nullIffCap r) ∧
    (∀ v w : asd.vector T, asd.vector.nullIffCap w →
      asd.vector.nullIffCap (asd.vector.move_assign v w).1.1 ∧
      asd.vector.nullIffCap (asd.vector.move_assign v w).1.2) ∧
    (∀ (aOk : Nat → Bool) (v w r : asd.vector T),
      asd.vector.nullIffCap v →
      (0 < w.m_count ∨ v.m_capacity = 0) →
      asd.vector.copy_assign aOk v w = Except.ok r →
      asd.vector.nullIffCap r) ∧
    (∀ (aOk : Nat → Bool) (v w r : asd.vector T),
      asd.vector.nullIffCap v → w.m_count = 0 → 0 < v.m_capacity →
      asd.vector.copy_assign aOk v w = Except.ok r →
      r.m_capacity = 0 ∧ r.m_data ≠ none) := by
  refine ⟨by simp [asd.vector.nullIffCap, asd.vector.reset],
    ?_, ?_, ?_, ?_, ?_, ?_, ?_⟩
  · intro aOk other r h
    unfold asd.vector.copy_ctor asd.alloc at h
    by_cases h0 : other.m_count = 0
    · rw [if_pos h0] at h
      simp at h
      simp [← h, asd.vector.nullIffCap, asd.vector.reset]
    · rw [if_neg h0] at h
      by_cases ha : aOk other.m_count = true
      · rw [if_pos ha] at h
        simp at h
        simp [← h, asd.vector.nullIffCap, h0]
      · rw [if_neg ha] at h
        simp at h
  · intro other hv
    exact ⟨hv, by
      simp [asd.vector.nullIffCap, asd.vector.reset, asd.vector.move_ctor]⟩
  · intro aOk v r x hv h
    unfold asd.vector.push_back at h
    by_cases hc : v.m_count = v.m_capacity
    · rw [if_pos hc] at h
      unfold asd.vector.reallocate asd.alloc at h
      by_cases ha :
          aOk (if v.m_capacity = 0 then 1 else v.m_capacity * 2) = true
      · rw [if_pos ha] at h
        simp at h
        simp only [← h, asd.vector.nullIffCap]
        constructor
        · intro hx
          simp at hx
        · intro hx
          by_cases h0 : v.m_capacity = 0 <;> simp [h0] at hx
      · rw [if_neg ha] at h
        simp at h
    · rw [if_neg hc] at h
      simp at h
      simp only [← h, asd.vector.nullIffCap, Option.map_eq_none']
      exact hv
  · intro aOk v r x hv h
    unfold asd.vector.emplace_back at h
    by_cases hc : v.m_count = v.m_capacity
    · rw [if_pos hc] at h
      unfold asd.vector.reallocate asd.alloc at h
      by_cases ha :
          aOk (if v.m_capacity = 0 then 1 else v.m_capacity * 2) = true
      · rw [if_pos ha] at h
        simp at h
        simp only [← h, asd.vector.nullIffCap]
        constructor
        · intro hx
          simp at hx
        · intro hx
          by_cases h0 : v.m_capacity = 0 <;> simp [h0] at hx
      · rw [if_neg ha] at h
        simp at h
    · rw [if_neg hc] at h
      simp at h
      simp only [← h, asd.vector.nullIffCap, Option.map_eq_none']
      exact hv
  · intro v w hw
    exact ⟨hw, by
      simp [asd.vector.nullIffCap, asd.vector.reset, asd.vector.move_assign]⟩
  · intro aOk v w r hv hok h
    unfold asd.vector.copy_assign asd.alloc at h
    by_cases hc : v.m_capacity < w.m_count
    · rw [if_pos hc] at h
      by_cases ha : aOk w.m_count = true
      · rw [if_pos ha] at h
        simp at h
        simp only [← h, asd.vector.nullIffCap]
        constructor
        · intro hx
          simp at hx
        · intro hx
          omega
      · rw [if_neg ha] at h
        simp at h
    · rw [if_neg hc] at h
      simp at h
      simp only [← h, asd.vector.nullIffCap, Option.map_eq_none']
      rcases hok with h1 | h1
      · constructor
        · intro hd
          have := hv.mp hd
          omega
        · intro hx
          omega
      · have hd : v.m_data = none := hv.mpr h1
        have hw0 : w.m_count = 0 := by omega
        simp [hd, hw0]
  · intro aOk v w r hv hw0 hcap h
    unfold asd.vector.copy_assign asd.alloc at h
    rw [if_neg (by omega)] at h
    simp at h
    refine ⟨by rw [← h]; exact hw0, ?_⟩
    rw [← h]
    show ¬ (Option.map _ v.m_data = none)
    rw [Option.map_eq_none']
    intro hd
    have := hv.mp hd
    omega

/-- Witness for C3 as amended, exercising the push_back clause: pushing 3
onto the empty vector (which satisfies the invariant) yields a state that
satisfies it again. -/
theorem null_iff_zero_capacity_amended_witness :
    asd.vector.nullIffCap (@asd.vector.reset Nat) ∧
    asd.vector.push_back (fun _ => true) (@asd.vector.reset Nat) 3 =
      Except.ok (asd.vector.push_back_ok asd.vector.reset 3) ∧
    asd.vector.nullIffCap (asd.vector.push_back_ok asd.vector.reset 3) :=
  ⟨by simp [asd.vector.nullIffCap, asd.vector.reset], rfl,
    (null_iff_zero_capacity_amended Nat).2.2.2.1 (fun _ => true)
      asd.vector.reset (asd.vector.push_back_ok asd.vector.reset 3) 3
      (by simp [asd.vector.nullIffCap, asd.vector.reset]) rfl⟩

/-- C9: every successful copy assignment records capacity() equal to the
source count (and size likewise); when the destination capacity was
already sufficient the storage region is reused — its allocated slot
count is unchanged — and when the prior capacity was strictly larger than
the source count the recorded capacity ends up strictly below the number
of slots actually allocated in the region. -/
theorem copy_assign_capacity_correct (T : Type) (aOk : Nat → Bool)
    (v w r : asd.vector T)
    (h : asd.vector.copy_assign aOk v w = Except.ok r) :
    r.capacity = w.size ∧ r.size = w.size ∧
    (w.m_count ≤ v.m_capacity → r.region.length = v.region.length) ∧
    (w.m_count < v.m_capacity → v.m_capacity ≤ v.region.length →
      r.capacity < r.region.length) := by
  unfold asd.vector.copy_assign asd.alloc at h
  by_cases hc : v.m_capacity < w.m_count
  · rw [if_pos hc] at h
    by_cases ha : aOk w.m_count = true
    · rw [if_pos ha] at h
      simp at h
      refine ⟨by rw [← h]; rfl, by rw [← h]; rfl, ?_, ?_⟩
      · intro hle
        omega
      · intro hlt
        omega
    · rw [if_neg ha] at h
      simp at h
  · rw [if_neg hc] at h
    simp at h
    have hlen : r.region.length = v.region.length := by
      rw [← h]
      show ((v.m_data.map
          (fun l => asd.copy w.region w.m_count l)).getD []).length =
        (v.m_data.getD []).length
      cases hd : v.m_data with
      | none => rfl
      | some l =>
        show (asd.copy w.region w.m_count l).length = l.length
        exact asd.vector.copy_length w.region w.m_count l
    refine ⟨by rw [← h]; rfl, by rw [← h]; rfl, fun _ => hlen, ?_⟩
    intro hlt hle
    have hrc : r.capacity = w.m_count := by rw [← h]; rfl
    rw [hrc, hlen]
    omega

/-- Witness for C9: destination holding 1,2,3 (count 3, capacity 4,
region of 4 slots), source holding just 9 (count 1): after assignment the
capacity is 1 while the reused region still has its 4 allocated slots. -/
theorem copy_assign_capacity_correct_witness :
    (⟨1, 1, some [some 9, some 2, some 3, none]⟩ :
        asd.vector Nat).capacity =
      (asd.vector.pushAll asd.vector.reset ([9] : List Nat)).size ∧
    (⟨1, 1, some [some 9, some 2, some 3, none]⟩ :
        asd.vector Nat).size =
      (asd.vector.pushAll asd.vector.reset ([9] : List Nat)).size ∧
    ((asd.vector.pushAll asd.vector.reset ([9] : List Nat)).m_count ≤
        (asd.vector.pushAll asd.vector.reset
          ([1, 2, 3] : List Nat)).m_capacity →
      (⟨1, 1, some [some 9, some 2, some 3, none]⟩ :
          asd.vector Nat).region.length =
        (asd.vector.pushAll asd.vector.reset
          ([1, 2, 3] : List Nat)).region.length) ∧
    ((asd.vector.pushAll asd.vector.reset ([9] : List Nat)).m_count <
        (asd.vector.pushAll asd.vector.reset
          ([1, 2, 3] : List Nat)).m_capacity →
      (asd.vector.pushAll asd.vector.reset
          ([1, 2, 3] : List Nat)).m_capacity ≤
        (asd.vector.pushAll asd.vector.reset
          ([1, 2, 3] : List Nat)).region.length →
      (⟨1, 1, some [some 9, some 2, some 3, none]⟩ :
          asd.vector Nat).capacity <
        (⟨1, 1, some [some 9, some 2, some 3, none]⟩ :
          asd.vector Nat).region.length) :=
  copy_assign_capacity_correct Nat (fun _ => true)
    (asd.vector.pushAll asd.vector.reset ([1, 2, 3] : List Nat))
    (asd.vector.pushAll asd.vector.reset ([9] : List Nat))
    (⟨1, 1, some [some 9, some 2, some 3, none]⟩ : asd.vector Nat) rfl
